import Mathlib

/-!
# libtimeseries: the line parser and backend fan-out of `timeseries-insert`

A shallow embedding of `insert` and of the read loop of `main` in
`src/tools/timeseries-insert.c`, together with the libc routines they call
(`strsep`, `strtoull`, `strtoul`) as ISO C / POSIX specify them.

Modelling conventions.
* A C string is the list of the characters that precede its terminating NUL;
  the empty list is the string whose first byte is NUL.  A `char *` that may be
  `NULL` is an `Option`.
* `errno` is threaded explicitly: it is read by `insert` and written by the
  conversion routines.  The other library calls made by the tool (`fprintf`,
  `wandio_fgets`) and the backends leave it as they found it.
* The input file is the list of its bytes and is always readable;
  `wandio_fgets` reads it line by line into the buffer of `BUFFER_LEN` bytes.
* A backend write `timeseries_set_single` is a collaborator outside the
  repository: it is a state transformer on an abstract world `σ` that returns
  the integer status.
* Every backend write is logged as a `Call`, every line printed on standard
  error as a `Diag`.
-/

namespace TimeseriesInsert

/-- A C string: the characters before the terminating NUL. -/
abbrev CStr := List Char

/-- The `errno` value ERANGE of `errno.h`. -/
def ERANGE : Nat := 34

/-- ULLONG_MAX of `limits.h`: `unsigned long long` has 64 bits. -/
def ULLONG_MAX : Nat := 2 ^ 64 - 1

/-- The `isspace` of the C locale: space, `\t`, `\n`, `\v`, `\f`, `\r`. -/
def isspace (c : Char) : Bool :=
  c.toNat = 32 || (9 ≤ c.toNat && c.toNat ≤ 13)

/-- The `isdigit` of C: the ten characters `0` to `9`. -/
def isdigit (c : Char) : Bool :=
  48 ≤ c.toNat && c.toNat ≤ 57

/-- The scan of `strsep` over the string: the token that ends at the first
delimiter character (overwritten by NUL), and the new value of `*stringp`,
which is the text after that delimiter or `NULL` when there is none. -/
def strsep_scan (delim : List Char) : CStr → CStr × Option CStr
  | [] => ([], none)
  | c :: cs =>
    if c ∈ delim then ([], some cs)
    else ((c :: (strsep_scan delim cs).1), (strsep_scan delim cs).2)

/-- The libc `strsep(&stringp, delim)`: returns `NULL` when `*stringp` is
`NULL`, and otherwise the token at the start of `*stringp`; the second
component is the updated `*stringp`. -/
def strsep (stringp : Option CStr) (delim : List Char) : Option CStr × Option CStr :=
  match stringp with
  | none => (none, none)
  | some s => (some (strsep_scan delim s).1, (strsep_scan delim s).2)

/-- The result of a `strtoull`/`strtoul` call: the returned number, the
offset of `*endptr` from `nptr`, and `errno` after the call. -/
structure Conv where
  result : Nat
  endp : Nat
  errno : Nat
  deriving DecidableEq, Repr

/-- The digit accumulation loop of the conversion: `acc * 10 + digit`. -/
def accumulate (ds : List Char) : Nat :=
  ds.foldl (fun acc c => acc * 10 + (c.toNat - 48)) 0

/-- The number of sign characters (`+` or `-`) at the head of the string. -/
def signLen (s : CStr) : Nat :=
  match s with
  | [] => 0
  | c :: _ => if c = '+' ∨ c = '-' then 1 else 0

/-- Whether the string starts with a minus sign. -/
def isNegative (s : CStr) : Bool :=
  match s with
  | [] => false
  | c :: _ => decide (c = '-')

/-- The base-10 conversion to an unsigned type of maximum `umax`, shared by
`strtoull` and `strtoul`: skip white space, take an optional sign, then the
longest run of digits.  With no digit nothing is converted: the result is 0
and `*endptr = nptr`.  A magnitude above `umax` gives `umax` and sets `errno`
to ERANGE; a minus sign negates within the unsigned type.  `errno` is left
untouched in every other case. -/
def strtou (umax : Nat) (nptr : CStr) (errno : Nat) : Conv :=
  let ws := nptr.takeWhile isspace
  let s1 := nptr.dropWhile isspace
  let ds := (s1.drop (signLen s1)).takeWhile isdigit
  if ds = [] then ⟨0, 0, errno⟩
  else if umax < accumulate ds then
    ⟨umax, ws.length + signLen s1 + ds.length, ERANGE⟩
  else
    ⟨(if isNegative s1 then (umax + 1 - accumulate ds) % (umax + 1) else accumulate ds),
      ws.length + signLen s1 + ds.length, errno⟩

/-- The libc `strtoull(nptr, &end, 10)`. -/
def strtoull (nptr : CStr) (errno : Nat) : Conv := strtou ULLONG_MAX nptr errno

/-- The libc `strtoul(nptr, &end, 10)`; `ulong_max` is ULONG_MAX of the
platform (`2 ^ 64 - 1` on LP64, `2 ^ 32 - 1` on ILP32). -/
def strtoul (ulong_max : Nat) (nptr : CStr) (errno : Nat) : Conv :=
  strtou ulong_max nptr errno

/-- One line written to standard error by `insert`, with the strings it
prints. -/
inductive Diag where
  | missingKey
  | missingValue (key : CStr)
  | invalidValue (key value_str : CStr)
  | missingTime (key value_str : CStr)
  | invalidTime (key value_str time_str : CStr)
  deriving DecidableEq, Repr

/-- One call `timeseries_set_single(backends[backend], key, value, time)` and
the status it returned. -/
structure Call where
  backend : Nat
  key : CStr
  value : Nat
  time : Nat
  rc : Int
  deriving DecidableEq, Repr

/-- An enabled backend: what `timeseries_set_single` does with it. -/
abbrev Backend (σ : Type) := σ → CStr → Nat → Nat → Int × σ

/-- What a call of `insert` leaves behind: the returned status, `errno`, the
world of the backends, the backend writes made and the diagnostics printed. -/
structure Outcome (σ : Type) where
  ret : Int
  errno : Nat
  world : σ
  calls : List Call
  stderr : List Diag

/-- The fan-out loop of `insert` (lines 104-111), entered with loop index `i`
and the backends `backends[i..]` still to visit: the first non-zero status
returns -1 at once, the end of the array returns 0. -/
def insert_loop {σ : Type} (key : CStr) (value time : Nat) (errno : Nat) :
    Nat → List (Backend σ) → σ → Outcome σ
  | _, [], w => ⟨0, errno, w, [], []⟩
  | i, b :: bs, w =>
    if (b w key value time).1 ≠ 0 then
      ⟨-1, errno, (b w key value time).2, [⟨i, key, value, time, (b w key value time).1⟩], []⟩
    else
      let r := insert_loop key value time errno (i + 1) bs (b w key value time).2
      ⟨r.ret, r.errno, r.world, ⟨i, key, value, time, (b w key value time).1⟩ :: r.calls, r.stderr⟩

/-- The function `insert` of `timeseries-insert.c`, called on the non-NULL
buffer `line` with `errno` and the backend world as it finds them. -/
def insert {σ : Type} (ulong_max : Nat) (backends : List (Backend σ)) (errno : Nat) (w : σ)
    (line : CStr) : Outcome σ :=
  match strsep (some line) [' '] with
  | (none, _) => ⟨0, errno, w, [], [Diag.missingKey]⟩
  | (some key, line1) =>
    match strsep line1 [' '] with
    | (none, _) => ⟨0, errno, w, [], [Diag.missingValue key]⟩
    | (some value_str, line2) =>
      let cv := strtoull value_str errno
      let value := cv.result % 2 ^ 64
      if cv.endp = 0 ∨ cv.endp < value_str.length ∨ cv.errno = ERANGE then
        ⟨0, cv.errno, w, [], [Diag.invalidValue key value_str]⟩
      else
        match strsep line2 [' '] with
        | (none, _) => ⟨0, cv.errno, w, [], [Diag.missingTime key value_str]⟩
        | (some time_str, _) =>
          let ct := strtoul ulong_max time_str cv.errno
          let time := ct.result % 2 ^ 32
          if ct.endp = 0 ∨ ct.endp < time_str.length ∨ ct.errno = ERANGE then
            ⟨0, ct.errno, w, [], [Diag.invalidTime key value_str time_str]⟩
          else
            insert_loop key value time ct.errno 0 backends w

/-- What a run of the read loop of `main` leaves behind: the exit status, the
final `errno` and world, all backend writes and diagnostics in order, and the
buffers that were handed to `insert`. -/
structure Run (σ : Type) where
  exit : Int
  errno : Nat
  world : σ
  calls : List Call
  stderr : List Diag
  inserted : List CStr

/-- BUFFER_LEN of `timeseries-insert.c`: the size of the line buffer of
`main`. -/
def BUFFER_LEN : Nat := 1024

/-- What one call of `wandio_fgets` leaves behind: the C string in the buffer,
the returned byte count, and the part of the file not yet read. -/
structure Fgets where
  buffer : List Char
  ret : Int
  rest : List Char
  deriving DecidableEq, Repr

/-- The byte loop of `wandio_fgets` with room for `n` more bytes: it stores
bytes until a newline has been read (stored only when `chomp` is off), the
room is used up, or the file ends.  The result is the bytes stored, the number
of bytes read, and the rest of the file. -/
def wandio_fgets_loop (chomp : Bool) : Nat → List Char → List Char × Nat × List Char
  | 0, file => ([], 0, file)
  | _ + 1, [] => ([], 0, [])
  | n + 1, c :: cs =>
    if c = '\n' then ((if chomp then [] else [c]), 1, cs)
    else (c :: (wandio_fgets_loop chomp n cs).1, (wandio_fgets_loop chomp n cs).2.1 + 1,
      (wandio_fgets_loop chomp n cs).2.2)

/-- The library routine `wandio_fgets(file, buffer, len, chomp)` on a readable
file: it reads one line but at most `len - 1` bytes, NUL-terminates the
buffer, and returns the number of bytes read (0 at the end of the file).  The
buffer is returned as a C string, so it ends before any NUL byte read. -/
def wandio_fgets (file : List Char) (len : Nat) (chomp : Bool) : Fgets :=
  if len = 0 then ⟨[], 0, file⟩
  else
    ⟨(wandio_fgets_loop chomp (len - 1) file).1.takeWhile (fun c => decide (c.toNat ≠ 0)),
      ((wandio_fgets_loop chomp (len - 1) file).2.1 : Int),
      (wandio_fgets_loop chomp (len - 1) file).2.2⟩

/-- The read loop of `main` (lines 302-318) on the input file `infile`, run
for at most `fuel` iterations (`none` when they do not suffice): as long as
`wandio_fgets` returns more than 0 the buffer is looked at; a buffer that
starts with `#` or is empty is skipped, any other is passed to `insert`, whose
return value is discarded; after the loop `main` returns 0. -/
def main_loop {σ : Type} (ulong_max : Nat) (backends : List (Backend σ)) :
    Nat → Nat → σ → List Char → Option (Run σ)
  | 0, _, _, _ => none
  | fuel + 1, errno, w, infile =>
    if 0 < (wandio_fgets infile BUFFER_LEN true).ret then
      if (wandio_fgets infile BUFFER_LEN true).buffer.head? = some '#' ∨
          (wandio_fgets infile BUFFER_LEN true).buffer = [] then
        main_loop ulong_max backends fuel errno w (wandio_fgets infile BUFFER_LEN true).rest
      else
        match main_loop ulong_max backends fuel
            (insert ulong_max backends errno w (wandio_fgets infile BUFFER_LEN true).buffer).errno
            (insert ulong_max backends errno w (wandio_fgets infile BUFFER_LEN true).buffer).world
            (wandio_fgets infile BUFFER_LEN true).rest with
        | none => none
        | some t =>
          some ⟨t.exit, t.errno, t.world,
            (insert ulong_max backends errno w
              (wandio_fgets infile BUFFER_LEN true).buffer).calls ++ t.calls,
            (insert ulong_max backends errno w
              (wandio_fgets infile BUFFER_LEN true).buffer).stderr ++ t.stderr,
            (wandio_fgets infile BUFFER_LEN true).buffer :: t.inserted⟩
    else some ⟨0, errno, w, [], [], []⟩

/-- The function `main` from the read loop on, with the backends enabled and
the input file opened: every iteration of the loop reads at least one byte, so
one iteration more than the file has bytes is enough. -/
def main {σ : Type} (ulong_max : Nat) (backends : List (Backend σ)) (errno : Nat) (w : σ)
    (infile : List Char) : Option (Run σ) :=
  main_loop ulong_max backends (infile.length + 1) errno w infile

/-- A backend whose every write succeeds (status 0). -/
def okBackend : Backend Unit := fun w _ _ _ => (0, w)

/-- A backend whose every write fails (status -1). -/
def failBackend : Backend Unit := fun w _ _ _ => (-1, w)

/-- The number that a string of decimal digits denotes, most significant
digit first (the reading of the specification, independent of the
conversion loop). -/
def decimal (ds : List Char) : Nat :=
  Nat.ofDigits 10 ((ds.map (fun c => c.toNat - 48)).reverse)

/-- The tokens that the conversion routines consume in full: optional white
space, an optional sign, then one or more decimal digits and nothing else. -/
def fullNumeric (s : CStr) : Bool :=
  ((s.dropWhile isspace).drop (signLen (s.dropWhile isspace))) ≠ [] &&
    ((s.dropWhile isspace).drop (signLen (s.dropWhile isspace))).all isdigit

/-- The world in which backend `i` is written when the backends before it
have been written in configuration order, starting from the world `w` (the
reading of the specification: a fold over the first `i` backends). -/
def world_before {σ : Type} (key : CStr) (value time : Nat) (bs : List (Backend σ)) (w : σ)
    (i : Nat) : σ :=
  (bs.take i).foldl (fun w' b => (b w' key value time).2) w

/-- A backend that counts its writes in the world and accepts a write only
while fewer than `limit` writes have been made. -/
def limitedBackend (limit : Nat) : Backend Nat :=
  fun w _ _ _ => (if w < limit then 0 else -1, w + 1)

/-- The reading of "every line is passed to `insert` exactly once, in input
order": `insert` is called on each line of the list in turn, each call in the
`errno` and world the previous one left, and the writes and diagnostics are
collected in order. -/
def insert_each {σ : Type} (ulong_max : Nat) (backends : List (Backend σ)) :
    Nat → σ → List CStr → Run σ
  | errno, w, [] => ⟨0, errno, w, [], [], []⟩
  | errno, w, l :: ls =>
    let r := insert ulong_max backends errno w l
    let t := insert_each ulong_max backends r.errno r.world ls
    ⟨t.exit, t.errno, t.world, r.calls ++ t.calls, r.stderr ++ t.stderr, l :: t.inserted⟩

/-- The input file that consists of the given lines, each ended by a
newline. -/
def file_of_lines : List CStr → List Char
  | [] => []
  | l :: ls => l ++ '\n' :: file_of_lines ls

/-- A line that `wandio_fgets` hands over whole: it has no newline and no NUL
byte inside and at most `BUFFER_LEN - 1` characters. -/
def FitsBuffer (l : CStr) : Prop :=
  '\n' ∉ l ∧ (∀ c ∈ l, c.toNat ≠ 0) ∧ l.length ≤ BUFFER_LEN - 1

instance (l : CStr) : Decidable (FitsBuffer l) := by
  unfold FitsBuffer
  infer_instance

/-! ## Facts about the library routines -/

theorem strsep_scan_token (tok rest : CStr) (h : ' ' ∉ tok) :
    strsep_scan [' '] (tok ++ ' ' :: rest) = (tok, some rest) := by
  induction tok with
  | nil => simp [strsep_scan]
  | cons c cs ih =>
    have hc : c ≠ ' ' := fun e => h (by simp [e])
    have hcs : ' ' ∉ cs := fun e => h (by simp [e])
    simp [strsep_scan, hc, ih hcs]

theorem strsep_scan_last (tok : CStr) (h : ' ' ∉ tok) :
    strsep_scan [' '] tok = (tok, none) := by
  induction tok with
  | nil => simp [strsep_scan]
  | cons c cs ih =>
    have hc : c ≠ ' ' := fun e => h (by simp [e])
    have hcs : ' ' ∉ cs := fun e => h (by simp [e])
    simp [strsep_scan, hc, ih hcs]

theorem accumulate_from (ds : List Char) :
    ∀ a : Nat, ds.foldl (fun acc c => acc * 10 + (c.toNat - 48)) a
      = a * 10 ^ ds.length + decimal ds := by
  induction ds with
  | nil => intro a; simp [decimal]
  | cons c cs ih =>
    intro a
    rw [List.foldl_cons, ih]
    simp only [decimal, List.map_cons, List.reverse_cons, Nat.ofDigits_append,
      List.length_reverse, List.length_map, Nat.ofDigits_singleton, List.length_cons]
    ring

theorem accumulate_eq_decimal (ds : List Char) : accumulate ds = decimal ds := by
  simp [accumulate, accumulate_from]

theorem isdigit_not_space (c : Char) (h : isdigit c = true) : isspace c = false := by
  simp only [isdigit, Bool.and_eq_true, decide_eq_true_eq] at h
  simp only [isspace, Bool.or_eq_false_iff, decide_eq_false_iff_not, Bool.and_eq_false_iff]
  omega

theorem isdigit_not_sign (c : Char) (h : isdigit c = true) : ¬ (c = '+' ∨ c = '-') := by
  simp only [isdigit, Bool.and_eq_true, decide_eq_true_eq] at h
  rintro (rfl | rfl)
  · revert h; decide
  · revert h; decide

theorem isdigit_ne_blank (c : Char) (h : isdigit c = true) : c ≠ ' ' := by
  rintro rfl
  revert h; decide

/-- On a non-empty string of digits the conversion reads the whole string:
it yields its decimal value, or `umax` with ERANGE when that is larger. -/
theorem strtou_digits (umax : Nat) (ds : CStr) (errno : Nat) (hne : ds ≠ [])
    (hd : ∀ c ∈ ds, isdigit c = true) :
    strtou umax ds errno =
      if umax < decimal ds then ⟨umax, ds.length, ERANGE⟩
      else ⟨decimal ds, ds.length, errno⟩ := by
  obtain ⟨c, cs, rfl⟩ := List.exists_cons_of_ne_nil hne
  have hc : isdigit c = true := hd c (by simp)
  have hsp : isspace c = false := isdigit_not_space c hc
  have hsg : ¬ (c = '+' ∨ c = '-') := isdigit_not_sign c hc
  have hneg : c ≠ '-' := fun e => hsg (Or.inr e)
  have htw : List.takeWhile isdigit (c :: cs) = c :: cs :=
    List.takeWhile_eq_self_iff.mpr hd
  have hdw : List.dropWhile isspace (c :: cs) = c :: cs := by
    simp [List.dropWhile, hsp]
  have htk : List.takeWhile isspace (c :: cs) = [] := by
    simp [List.takeWhile, hsp]
  have hsl : signLen (c :: cs) = 0 := by simp [signLen, hsg]
  have hn : isNegative (c :: cs) = false := by simp [isNegative, hneg]
  unfold strtou
  simp only [hdw, htk, hsl, hn, List.drop_zero, htw, accumulate_eq_decimal]
  simp

theorem signLen_le_length (s : CStr) : signLen s ≤ s.length := by
  cases s with
  | nil => simp [signLen]
  | cons c cs =>
    simp only [signLen, List.length_cons]
    split <;> omega

/-- A token that is not of the full numeric form is never consumed in full:
the conversion either converts nothing or stops before the end. -/
theorem strtou_rejects (umax : Nat) (s : CStr) (errno : Nat) (h : fullNumeric s = false) :
    (strtou umax s errno).endp = 0 ∨ (strtou umax s errno).endp < s.length := by
  by_cases hds :
      ((s.dropWhile isspace).drop (signLen (s.dropWhile isspace))).takeWhile isdigit = []
  · left
    unfold strtou
    simp [hds]
  · right
    have hend : (strtou umax s errno).endp
        = (s.takeWhile isspace).length + signLen (s.dropWhile isspace)
          + (((s.dropWhile isspace).drop (signLen (s.dropWhile isspace))).takeWhile
              isdigit).length := by
      unfold strtou
      simp only [hds, if_false]
      split <;> rfl
    rw [hend]
    by_contra hlt
    have hlen : (s.takeWhile isspace).length + (s.dropWhile isspace).length = s.length := by
      have := congrArg List.length (List.takeWhile_append_dropWhile isspace s)
      rwa [List.length_append] at this
    have hsl := signLen_le_length (s.dropWhile isspace)
    have hdrop : ((s.dropWhile isspace).drop (signLen (s.dropWhile isspace))).length
        = (s.dropWhile isspace).length - signLen (s.dropWhile isspace) := List.length_drop _ _
    have hsplit := List.takeWhile_append_dropWhile isdigit
      ((s.dropWhile isspace).drop (signLen (s.dropWhile isspace)))
    have hsum := congrArg List.length hsplit
    rw [List.length_append] at hsum
    have hdw : (((s.dropWhile isspace).drop (signLen (s.dropWhile isspace))).dropWhile
        isdigit) = [] := List.length_eq_zero.mp (by omega)
    rw [hdw, List.append_nil] at hsplit
    have hall : ∀ c ∈ (s.dropWhile isspace).drop (signLen (s.dropWhile isspace)),
        isdigit c = true := List.takeWhile_eq_self_iff.mp hsplit
    have hne : (s.dropWhile isspace).drop (signLen (s.dropWhile isspace)) ≠ [] := by
      rw [← hsplit]; exact hds
    have : fullNumeric s = true := by
      simp only [fullNumeric, Bool.and_eq_true, decide_eq_true_eq, List.all_eq_true]
      exact ⟨hne, hall⟩
    rw [this] at h
    exact Bool.noConfusion h

/-! ## The line parser -/

/-- A line with no space: only the key is found. -/
theorem insert_one_token {σ : Type} (ulong_max : Nat) (bs : List (Backend σ)) (errno : Nat)
    (w : σ) (k : CStr) (hk : ' ' ∉ k) :
    insert ulong_max bs errno w k = ⟨0, errno, w, [], [Diag.missingValue k]⟩ := by
  simp only [insert, strsep, strsep_scan_last k hk]

/-- A line with exactly one space: the value is checked, then the time is
found missing. -/
theorem insert_two_tokens {σ : Type} (ulong_max : Nat) (bs : List (Backend σ)) (errno : Nat)
    (w : σ) (k v : CStr) (hk : ' ' ∉ k) (hv : ' ' ∉ v) :
    insert ulong_max bs errno w (k ++ ' ' :: v) =
      if (strtoull v errno).endp = 0 ∨ (strtoull v errno).endp < v.length ∨
          (strtoull v errno).errno = ERANGE then
        ⟨0, (strtoull v errno).errno, w, [], [Diag.invalidValue k v]⟩
      else ⟨0, (strtoull v errno).errno, w, [], [Diag.missingTime k v]⟩ := by
  simp only [insert, strsep, strsep_scan_token k _ hk, strsep_scan_last v hv]

/-- A line with at least three tokens: the third token is the time string,
whatever follows it. -/
theorem insert_three_tokens {σ : Type} (ulong_max : Nat) (bs : List (Backend σ)) (errno : Nat)
    (w : σ) (k v t tl : CStr) (hk : ' ' ∉ k) (hv : ' ' ∉ v) (ht : ' ' ∉ t)
    (htl : tl = [] ∨ ∃ x, tl = ' ' :: x) :
    insert ulong_max bs errno w (k ++ ' ' :: (v ++ ' ' :: (t ++ tl))) =
      if (strtoull v errno).endp = 0 ∨ (strtoull v errno).endp < v.length ∨
          (strtoull v errno).errno = ERANGE then
        ⟨0, (strtoull v errno).errno, w, [], [Diag.invalidValue k v]⟩
      else if (strtoul ulong_max t (strtoull v errno).errno).endp = 0 ∨
          (strtoul ulong_max t (strtoull v errno).errno).endp < t.length ∨
          (strtoul ulong_max t (strtoull v errno).errno).errno = ERANGE then
        ⟨0, (strtoul ulong_max t (strtoull v errno).errno).errno, w, [],
          [Diag.invalidTime k v t]⟩
      else
        insert_loop k ((strtoull v errno).result % 2 ^ 64)
          ((strtoul ulong_max t (strtoull v errno).errno).result % 2 ^ 32)
          (strtoul ulong_max t (strtoull v errno).errno).errno 0 bs w := by
  rcases htl with rfl | ⟨x, rfl⟩
  · simp only [List.append_nil, insert, strsep, strsep_scan_token k _ hk,
      strsep_scan_token v _ hv, strsep_scan_last t ht]
  · simp only [insert, strsep, strsep_scan_token k _ hk, strsep_scan_token v _ hv,
      strsep_scan_token t _ ht]

/-- A valid value token (a non-empty digit string in the 64-bit range) passes
the value check when no range error is pending, and leaves `errno` alone. -/
theorem strtoull_valid (v : CStr) (errno : Nat) (hne : v ≠ [])
    (hd : ∀ c ∈ v, isdigit c = true) (hr : decimal v ≤ 2 ^ 64 - 1) :
    strtoull v errno = ⟨decimal v, v.length, errno⟩ := by
  have h : ¬ ULLONG_MAX < decimal v := by
    simp only [ULLONG_MAX]; omega
  rw [strtoull, strtou_digits ULLONG_MAX v errno hne hd, if_neg h]

/-- A well-formed line read while no range error is pending in `errno` is
handed to the fan-out loop with exactly its key, value and time. -/
theorem insert_wellformed {σ : Type} (ulong_max : Nat) (bs : List (Backend σ)) (errno : Nat)
    (w : σ) (k v t : CStr) (hk : ' ' ∉ k)
    (hv : v ≠ []) (hvd : ∀ c ∈ v, isdigit c = true) (hvr : decimal v ≤ 2 ^ 64 - 1)
    (ht : t ≠ []) (htd : ∀ c ∈ t, isdigit c = true) (htr : decimal t ≤ 2 ^ 32 - 1)
    (hU : 2 ^ 32 - 1 ≤ ulong_max) (he : errno ≠ ERANGE) :
    insert ulong_max bs errno w (k ++ ' ' :: (v ++ ' ' :: t))
      = insert_loop k (decimal v) (decimal t) errno 0 bs w := by
  have hvs : ' ' ∉ v := fun hm => isdigit_ne_blank _ (hvd _ hm) rfl
  have hts : ' ' ∉ t := fun hm => isdigit_ne_blank _ (htd _ hm) rfl
  have h3 := insert_three_tokens ulong_max bs errno w k v t [] hk hvs hts (Or.inl rfl)
  rw [List.append_nil] at h3
  have hvl : 0 < v.length := List.length_pos.mpr hv
  have htl : 0 < t.length := List.length_pos.mpr ht
  have hct : strtoul ulong_max t errno = ⟨decimal t, t.length, errno⟩ := by
    have h : ¬ ulong_max < decimal t := by omega
    rw [strtoul, strtou_digits ulong_max t errno ht htd, if_neg h]
  rw [h3, strtoull_valid v errno hv hvd hvr]
  simp only [hct]
  rw [if_neg (by simp only [he, or_false]; omega), if_neg (by simp only [he, or_false]; omega),
    Nat.mod_eq_of_lt (by omega), Nat.mod_eq_of_lt (by omega)]

theorem insert_wellformed_example :
    insert (2 ^ 64 - 1) [okBackend] 0 ()
        (("a.test.key".toList) ++ ' ' :: (("123456".toList) ++ ' ' :: ("1404174060".toList)))
      = insert_loop ("a.test.key".toList) (decimal ("123456".toList))
          (decimal ("1404174060".toList)) 0 0 [okBackend] () :=
  insert_wellformed (2 ^ 64 - 1) [okBackend] 0 () ("a.test.key".toList) ("123456".toList)
    ("1404174060".toList) (by decide) (by decide) (by decide) (by decide) (by decide)
    (by decide) (by decide) (by decide) (by decide)

/-- A digit string above the range of its conversion is rejected with no
backend write: a value above `2 ^ 64 - 1` as an invalid value, and, once the
value has passed, a time above ULONG_MAX as an invalid time. -/
theorem insert_out_of_range {σ : Type} (ulong_max : Nat) (bs : List (Backend σ)) (errno : Nat)
    (w : σ) (k v t tl : CStr) (hk : ' ' ∉ k)
    (hv : v ≠ []) (hvd : ∀ c ∈ v, isdigit c = true)
    (ht : t ≠ []) (htd : ∀ c ∈ t, isdigit c = true)
    (htl : tl = [] ∨ ∃ x, tl = ' ' :: x) :
    (2 ^ 64 - 1 < decimal v →
      (insert ulong_max bs errno w (k ++ ' ' :: (v ++ ' ' :: (t ++ tl)))).calls = [] ∧
      (insert ulong_max bs errno w (k ++ ' ' :: (v ++ ' ' :: (t ++ tl)))).stderr
        = [Diag.invalidValue k v]) ∧
    (decimal v ≤ 2 ^ 64 - 1 → errno ≠ ERANGE → ulong_max < decimal t →
      (insert ulong_max bs errno w (k ++ ' ' :: (v ++ ' ' :: (t ++ tl)))).calls = [] ∧
      (insert ulong_max bs errno w (k ++ ' ' :: (v ++ ' ' :: (t ++ tl)))).stderr
        = [Diag.invalidTime k v t]) := by
  have hvs : ' ' ∉ v := fun hm => isdigit_ne_blank _ (hvd _ hm) rfl
  have hts : ' ' ∉ t := fun hm => isdigit_ne_blank _ (htd _ hm) rfl
  have hvl : 0 < v.length := List.length_pos.mpr hv
  rw [insert_three_tokens ulong_max bs errno w k v t tl hk hvs hts htl]
  constructor
  · intro hbig
    have hcv : strtoull v errno = ⟨ULLONG_MAX, v.length, ERANGE⟩ := by
      rw [strtoull, strtou_digits ULLONG_MAX v errno hv hvd, if_pos (by simpa [ULLONG_MAX] using hbig)]
    rw [hcv]
    simp only []
    rw [if_pos (Or.inr (Or.inr trivial))]
    exact ⟨rfl, rfl⟩
  · intro hr he hbig
    have hct : strtoul ulong_max t errno = ⟨ulong_max, t.length, ERANGE⟩ := by
      rw [strtoul, strtou_digits ulong_max t errno ht htd, if_pos hbig]
    rw [strtoull_valid v errno hv hvd hr]
    simp only [hct]
    rw [if_neg (by simp only [he, or_false]; omega), if_pos (Or.inr (Or.inr trivial))]
    exact ⟨rfl, rfl⟩

/-! ## Claims about the line parser -/

/-- Claim C1, at an input where the code departs from it: after a line whose
value overflows, `errno` is left at ERANGE, and the well-formed line
`a.test.key 123456 1404174060` is then rejected as an invalid value with no
backend write, although the same line is written when no range error is
pending. -/
theorem wellformed_line_rejected_when_range_error_pending :
    (insert (2 ^ 64 - 1) [okBackend] 0 () ("x 99999999999999999999 1".toList)).errno = ERANGE ∧
    (insert (2 ^ 64 - 1) [okBackend] ERANGE ()
        ("a.test.key 123456 1404174060".toList)).calls = [] ∧
    (insert (2 ^ 64 - 1) [okBackend] ERANGE ()
        ("a.test.key 123456 1404174060".toList)).stderr
      = [Diag.invalidValue ("a.test.key".toList) ("123456".toList)] ∧
    (insert (2 ^ 64 - 1) [okBackend] 0 ()
        ("a.test.key 123456 1404174060".toList)).calls
      = [⟨0, ("a.test.key".toList), 123456, 1404174060, 0⟩] := by
  decide

/-- Claim C4 as stated fails: on `k abc xyz` the time token `xyz` is not a
string of decimal digits, yet the diagnostic is the invalid-value one for
`abc`, not the invalid-time one; and the value token `+5` and the time token
`+100` are not strings of decimal digits, yet those lines are accepted and
written. -/
theorem tokens_not_rejected_as_claimed :
    (insert (2 ^ 64 - 1) [okBackend] 0 () ("k abc xyz".toList)).stderr
      = [Diag.invalidValue ("k".toList) ("abc".toList)] ∧
    (insert (2 ^ 64 - 1) [okBackend] 0 () ("k +5 100".toList)).calls
      = [⟨0, ("k".toList), 5, 100, 0⟩] ∧
    (insert (2 ^ 64 - 1) [okBackend] 0 () ("k +5 100".toList)).stderr = [] ∧
    (insert (2 ^ 64 - 1) [okBackend] 0 () ("k 5 +100".toList)).calls
      = [⟨0, ("k".toList), 5, 100, 0⟩] ∧
    (insert (2 ^ 64 - 1) [okBackend] 0 () ("k 5 +100".toList)).stderr = [] := by
  decide

/-- Claim C4, amended: on a line with a key, a value and a time token, a value
token that is not of the full numeric form (optional white space, optional
sign, one or more digits, nothing after) gives the invalid-value diagnostic
and no backend write; and when the value token is a digit string in the
64-bit range read with no range error pending, a time token that is not of
the full numeric form gives the invalid-time diagnostic and no backend
write. -/
theorem insert_rejects_non_numeric_tokens {σ : Type} (ulong_max : Nat)
    (bs : List (Backend σ)) (errno : Nat) (w : σ) (k v t tl : CStr)
    (hk : ' ' ∉ k) (hv : ' ' ∉ v) (ht : ' ' ∉ t) (htl : tl = [] ∨ ∃ x, tl = ' ' :: x) :
    (fullNumeric v = false →
      (insert ulong_max bs errno w (k ++ ' ' :: (v ++ ' ' :: (t ++ tl)))).ret = 0 ∧
      (insert ulong_max bs errno w (k ++ ' ' :: (v ++ ' ' :: (t ++ tl)))).calls = [] ∧
      (insert ulong_max bs errno w (k ++ ' ' :: (v ++ ' ' :: (t ++ tl)))).world = w ∧
      (insert ulong_max bs errno w (k ++ ' ' :: (v ++ ' ' :: (t ++ tl)))).stderr
        = [Diag.invalidValue k v]) ∧
    (v ≠ [] → (∀ c ∈ v, isdigit c = true) → decimal v ≤ 2 ^ 64 - 1 → errno ≠ ERANGE →
      fullNumeric t = false →
      (insert ulong_max bs errno w (k ++ ' ' :: (v ++ ' ' :: (t ++ tl)))).ret = 0 ∧
      (insert ulong_max bs errno w (k ++ ' ' :: (v ++ ' ' :: (t ++ tl)))).calls = [] ∧
      (insert ulong_max bs errno w (k ++ ' ' :: (v ++ ' ' :: (t ++ tl)))).world = w ∧
      (insert ulong_max bs errno w (k ++ ' ' :: (v ++ ' ' :: (t ++ tl)))).stderr
        = [Diag.invalidTime k v t]) := by
  rw [insert_three_tokens ulong_max bs errno w k v t tl hk hv ht htl]
  constructor
  · intro hbad
    have hrej := strtou_rejects ULLONG_MAX v errno hbad
    rw [if_pos (by
      rcases hrej with h | h
      · exact Or.inl h
      · exact Or.inr (Or.inl h))]
    exact ⟨rfl, rfl, rfl, rfl⟩
  · intro hne hd hr he hbad
    have hvl : 0 < v.length := List.length_pos.mpr hne
    have hrej := strtou_rejects ulong_max t errno hbad
    rw [strtoull_valid v errno hne hd hr]
    simp only []
    rw [if_neg (by simp only [he, or_false]; omega), if_pos (by
      rcases hrej with h | h
      · exact Or.inl h
      · exact Or.inr (Or.inl h))]
    exact ⟨rfl, rfl, rfl, rfl⟩

theorem insert_rejects_non_numeric_tokens_witness :
    (insert (2 ^ 64 - 1) [okBackend] 0 ()
        (("bad.key".toList) ++ ' ' :: (("notanumber".toList) ++ ' ' :: (("100".toList) ++ [])))).calls
      = [] ∧
    (insert (2 ^ 64 - 1) [okBackend] 0 ()
        (("bad.key".toList) ++ ' ' :: (("notanumber".toList) ++ ' ' :: (("100".toList) ++ [])))).stderr
      = [Diag.invalidValue ("bad.key".toList) ("notanumber".toList)] ∧
    (insert (2 ^ 64 - 1) [okBackend] 0 ()
        (("k".toList) ++ ' ' :: (("17".toList) ++ ' ' :: (("12x".toList) ++ [])))).stderr
      = [Diag.invalidTime ("k".toList) ("17".toList) ("12x".toList)] :=
  ⟨((insert_rejects_non_numeric_tokens (2 ^ 64 - 1) [okBackend] 0 () ("bad.key".toList)
      ("notanumber".toList) ("100".toList) [] (by decide) (by decide) (by decide)
      (Or.inl rfl)).1 (by decide)).2.1,
   ((insert_rejects_non_numeric_tokens (2 ^ 64 - 1) [okBackend] 0 () ("bad.key".toList)
      ("notanumber".toList) ("100".toList) [] (by decide) (by decide) (by decide)
      (Or.inl rfl)).1 (by decide)).2.2.2,
   ((insert_rejects_non_numeric_tokens (2 ^ 64 - 1) [okBackend] 0 () ("k".toList)
      ("17".toList) ("12x".toList) [] (by decide) (by decide) (by decide)
      (Or.inl rfl)).2 (by decide) (by decide) (by decide) (by decide) (by decide)).2.2.2⟩

/-- Claim C5, at an input where the code departs from it: with a 64-bit
`unsigned long` the time token `4294967296` is above `2 ^ 32 - 1`, yet the
line is accepted without a diagnostic and the backend receives time 0. -/
theorem time_above_32_bits_is_truncated :
    (insert (2 ^ 64 - 1) [okBackend] 0 () ("k 1 4294967296".toList)).calls
      = [⟨0, ("k".toList), 1, 0, 0⟩] ∧
    (insert (2 ^ 64 - 1) [okBackend] 0 () ("k 1 4294967296".toList)).stderr = [] ∧
    (insert (2 ^ 64 - 1) [okBackend] 0 () ("k 1 4294967296".toList)).ret = 0 := by
  decide

/-- Claim C6 as stated fails: the line `k abc` has a key and a value and no
time token, and the diagnostic is the invalid-value one, not the missing-time
one. -/
theorem one_space_line_with_bad_value :
    (insert (2 ^ 64 - 1) [okBackend] 0 () ("k abc".toList)).stderr
      = [Diag.invalidValue ("k".toList) ("abc".toList)] ∧
    (insert (2 ^ 64 - 1) [okBackend] 0 () ("k abc".toList)).stderr
      ≠ [Diag.missingTime ("k".toList) ("abc".toList)] := by
  decide

/-- Claim C6, amended: a line with no space gives the missing-value diagnostic
and no backend write; a line with exactly one space makes no backend write and
gives either the invalid-value or the missing-time diagnostic: missing-time
when the value token is a digit string in the 64-bit range read with no range
error pending, invalid-value when the value token is not of the full numeric
form. -/
theorem insert_missing_field {σ : Type} (ulong_max : Nat) (bs : List (Backend σ))
    (errno : Nat) (w : σ) (k v : CStr) (hk : ' ' ∉ k) (hv : ' ' ∉ v) :
    ((insert ulong_max bs errno w k).ret = 0 ∧
      (insert ulong_max bs errno w k).calls = [] ∧
      (insert ulong_max bs errno w k).world = w ∧
      (insert ulong_max bs errno w k).stderr = [Diag.missingValue k]) ∧
    ((insert ulong_max bs errno w (k ++ ' ' :: v)).ret = 0 ∧
      (insert ulong_max bs errno w (k ++ ' ' :: v)).calls = [] ∧
      (insert ulong_max bs errno w (k ++ ' ' :: v)).world = w ∧
      ((insert ulong_max bs errno w (k ++ ' ' :: v)).stderr = [Diag.missingTime k v] ∨
       (insert ulong_max bs errno w (k ++ ' ' :: v)).stderr = [Diag.invalidValue k v])) ∧
    (v ≠ [] → (∀ c ∈ v, isdigit c = true) → decimal v ≤ 2 ^ 64 - 1 → errno ≠ ERANGE →
      (insert ulong_max bs errno w (k ++ ' ' :: v)).stderr = [Diag.missingTime k v]) ∧
    (fullNumeric v = false →
      (insert ulong_max bs errno w (k ++ ' ' :: v)).stderr = [Diag.invalidValue k v]) := by
  rw [insert_one_token ulong_max bs errno w k hk,
    insert_two_tokens ulong_max bs errno w k v hk hv]
  refine ⟨⟨rfl, rfl, rfl, rfl⟩, ?_, ?_, ?_⟩
  · split
    · exact ⟨rfl, rfl, rfl, Or.inr rfl⟩
    · exact ⟨rfl, rfl, rfl, Or.inl rfl⟩
  · intro hne hd hr he
    have hvl : 0 < v.length := List.length_pos.mpr hne
    rw [strtoull_valid v errno hne hd hr]
    simp only []
    rw [if_neg (by simp only [he, or_false]; omega)]
  · intro hbad
    have hrej := strtou_rejects ULLONG_MAX v errno hbad
    rw [if_pos (by
      rcases hrej with h | h
      · exact Or.inl h
      · exact Or.inr (Or.inl h))]

theorem insert_missing_field_witness :
    (insert (2 ^ 64 - 1) [okBackend] 0 () ("a.test.key".toList)).stderr
      = [Diag.missingValue ("a.test.key".toList)] ∧
    (insert (2 ^ 64 - 1) [okBackend] 0 () (("a.test.key".toList) ++ ' ' :: ("123456".toList))).stderr
      = [Diag.missingTime ("a.test.key".toList) ("123456".toList)] ∧
    (insert (2 ^ 64 - 1) [okBackend] 0 () (("a.test.key".toList) ++ ' ' :: ("abc".toList))).stderr
      = [Diag.invalidValue ("a.test.key".toList) ("abc".toList)] :=
  ⟨(insert_missing_field (2 ^ 64 - 1) [okBackend] 0 () ("a.test.key".toList) ("123456".toList)
      (by decide) (by decide)).1.2.2.2,
   (insert_missing_field (2 ^ 64 - 1) [okBackend] 0 () ("a.test.key".toList) ("123456".toList)
      (by decide) (by decide)).2.2.1 (by decide) (by decide) (by decide) (by decide),
   (insert_missing_field (2 ^ 64 - 1) [okBackend] 0 () ("a.test.key".toList) ("abc".toList)
      (by decide) (by decide)).2.2.2 (by decide)⟩

/-- Claim C7 as stated fails: on `k 1 2 extra` the text after the second space
contains a space, yet the line is accepted: only the part before that space
is taken as the time, what follows is dropped, and the record is written. -/
theorem text_after_time_is_dropped :
    (insert (2 ^ 64 - 1) [okBackend] 0 () ("k 1 2 extra".toList)).calls
      = [⟨0, ("k".toList), 1, 2, 0⟩] ∧
    (insert (2 ^ 64 - 1) [okBackend] 0 () ("k 1 2 extra".toList)).stderr = [] := by
  decide

/-- Claim C7, amended: the time token is the text between the second space of
the line and the next space (or the end of the line); a third space and all
that follows it are ignored, so the line behaves in every respect as the line
cut before that space. -/
theorem insert_ignores_text_after_time {σ : Type} (ulong_max : Nat) (bs : List (Backend σ))
    (errno : Nat) (w : σ) (k v t extra : CStr) (hk : ' ' ∉ k) (hv : ' ' ∉ v) (ht : ' ' ∉ t) :
    insert ulong_max bs errno w (k ++ ' ' :: (v ++ ' ' :: (t ++ ' ' :: extra)))
      = insert ulong_max bs errno w (k ++ ' ' :: (v ++ ' ' :: t)) := by
  have h1 := insert_three_tokens ulong_max bs errno w k v t (' ' :: extra) hk hv ht
    (Or.inr ⟨extra, rfl⟩)
  have h2 := insert_three_tokens ulong_max bs errno w k v t [] hk hv ht (Or.inl rfl)
  rw [List.append_nil] at h2
  rw [h1, h2]

theorem insert_ignores_text_after_time_witness :
    ' ' ∉ "k".toList ∧ ' ' ∉ "1".toList ∧ ' ' ∉ "2".toList ∧
    insert (2 ^ 64 - 1) [okBackend] 0 ()
        (("k".toList) ++ ' ' :: (("1".toList) ++ ' ' :: (("2".toList) ++ ' ' :: ("extra".toList))))
      = insert (2 ^ 64 - 1) [okBackend] 0 ()
        (("k".toList) ++ ' ' :: (("1".toList) ++ ' ' :: ("2".toList))) :=
  ⟨by decide, by decide, by decide,
    insert_ignores_text_after_time (2 ^ 64 - 1) [okBackend] 0 () ("k".toList) ("1".toList)
      ("2".toList) ("extra".toList) (by decide) (by decide) (by decide)⟩

/-- Claim C9, at an input where the code departs from it: on ` 123 456` the key
token is empty, yet no missing-key diagnostic is printed and the backend
receives a record whose key is the empty string. -/
theorem empty_key_is_written :
    (insert (2 ^ 64 - 1) [okBackend] 0 () (" 123 456".toList)).calls
      = [⟨0, [], 123, 456, 0⟩] ∧
    (insert (2 ^ 64 - 1) [okBackend] 0 () (" 123 456".toList)).stderr = [] := by
  decide

/-! ## The fan-out loop -/

theorem world_before_zero {σ : Type} (key : CStr) (value time : Nat) (bs : List (Backend σ))
    (w : σ) : world_before key value time bs w 0 = w := by
  simp [world_before]

theorem world_before_succ {σ : Type} (key : CStr) (value time : Nat) (b : Backend σ)
    (bs : List (Backend σ)) (w : σ) (i : Nat) :
    world_before key value time (b :: bs) w (i + 1)
      = world_before key value time bs (b w key value time).2 i := by
  simp [world_before]

/-- When every write succeeds the loop visits all the backends. -/
theorem insert_loop_all_succeed {σ : Type} (key : CStr) (value time errno : Nat)
    (bs : List (Backend σ)) :
    ∀ (i0 : Nat) (w : σ),
      (∀ (i : Nat) (b : Backend σ), bs[i]? = some b →
        (b (world_before key value time bs w i) key value time).1 = 0) →
      insert_loop key value time errno i0 bs w
        = ⟨0, errno, world_before key value time bs w bs.length,
            (List.range bs.length).map (fun j => ⟨i0 + j, key, value, time, 0⟩), []⟩ := by
  induction bs with
  | nil => intro i0 w _; simp [insert_loop, world_before]
  | cons b bs ih =>
    intro i0 w h
    have h0 : (b w key value time).1 = 0 := by
      have := h 0 b (by simp)
      rwa [world_before_zero] at this
    have ht : ∀ (i : Nat) (b' : Backend σ), bs[i]? = some b' →
        (b' (world_before key value time bs (b w key value time).2 i) key value time).1
          = 0 := by
      intro i b' hb
      have := h (i + 1) b' (by simpa using hb)
      rwa [world_before_succ] at this
    simp only [insert_loop, h0, ne_eq, not_true_eq_false, if_false]
    rw [ih (i0 + 1) (b w key value time).2 ht]
    simp only [List.length_cons, world_before_succ, List.range_succ_eq_map, List.map_cons,
      List.map_map, Nat.add_zero]
    congr 2
    apply List.map_congr_left
    intro j _
    simp only [Function.comp, Nat.succ_eq_add_one]
    congr 1
    omega

/-- When the write to backend `k` is the first to fail the loop stops there. -/
theorem insert_loop_first_failure {σ : Type} (key : CStr) (value time errno : Nat) :
    ∀ (k : Nat) (bs : List (Backend σ)) (i0 : Nat) (w : σ) (b : Backend σ),
      bs[k]? = some b →
      (∀ (i : Nat) (b' : Backend σ), i < k → bs[i]? = some b' →
        (b' (world_before key value time bs w i) key value time).1 = 0) →
      (b (world_before key value time bs w k) key value time).1 ≠ 0 →
      insert_loop key value time errno i0 bs w
        = ⟨-1, errno, (b (world_before key value time bs w k) key value time).2,
            (List.range k).map (fun j => ⟨i0 + j, key, value, time, 0⟩)
              ++ [⟨i0 + k, key, value, time,
                    (b (world_before key value time bs w k) key value time).1⟩], []⟩ := by
  intro k
  induction k with
  | zero =>
    intro bs i0 w b hb _ hfail
    cases bs with
    | nil => simp at hb
    | cons b0 bs =>
      simp only [List.getElem?_cons_zero, Option.some.injEq] at hb
      subst hb
      rw [world_before_zero] at hfail ⊢
      simp [insert_loop, hfail]
  | succ k ih =>
    intro bs i0 w b hb hpre hfail
    cases bs with
    | nil => simp at hb
    | cons b0 bs =>
      have h0 : (b0 w key value time).1 = 0 := by
        have := hpre 0 b0 (by omega) (by simp)
        rwa [world_before_zero] at this
      have hb' : bs[k]? = some b := by simpa using hb
      have hpre' : ∀ (i : Nat) (b' : Backend σ), i < k → bs[i]? = some b' →
          (b' (world_before key value time bs (b0 w key value time).2 i) key value time).1
            = 0 := by
        intro i b' hi hbi
        have := hpre (i + 1) b' (by omega) (by simpa using hbi)
        rwa [world_before_succ] at this
      rw [world_before_succ] at hfail ⊢
      simp only [insert_loop, h0, ne_eq, not_true_eq_false, if_false]
      rw [ih bs (i0 + 1) (b0 w key value time).2 b hb' hpre' hfail]
      simp only [List.range_succ_eq_map, List.map_cons, List.map_map, Nat.add_zero,
        List.cons_append]
      congr 2
      · congr 1
        · apply List.map_congr_left
          intro j _
          simp only [Function.comp, Nat.succ_eq_add_one]
          congr 1
          omega
        · congr 2
          omega

/-- Claim C2: for every record and every list of `N` backends, the fan-out
loop writes the backends in configuration order, each with the identical
`(key, value, time)` and each in the world its predecessors left.  When all
`N` writes return 0, the loop has called exactly backends `0..N-1` and
returns 0.  When the write to backend `k` is the first that returns a
non-zero status, the loop has called exactly backends `0..k`, has not called
backends `k+1..N-1` (the world is the one backend `k` left), and returns -1. -/
theorem insert_loop_in_order_fail_fast {σ : Type} (key : CStr) (value time errno : Nat)
    (bs : List (Backend σ)) (w : σ) :
    ((∀ (i : Nat) (b : Backend σ), bs[i]? = some b →
        (b (world_before key value time bs w i) key value time).1 = 0) →
      insert_loop key value time errno 0 bs w
        = ⟨0, errno, world_before key value time bs w bs.length,
            (List.range bs.length).map (fun j => ⟨j, key, value, time, 0⟩), []⟩) ∧
    (∀ (k : Nat) (b : Backend σ), bs[k]? = some b →
      (∀ (i : Nat) (b' : Backend σ), i < k → bs[i]? = some b' →
        (b' (world_before key value time bs w i) key value time).1 = 0) →
      (b (world_before key value time bs w k) key value time).1 ≠ 0 →
      insert_loop key value time errno 0 bs w
        = ⟨-1, errno, (b (world_before key value time bs w k) key value time).2,
            (List.range k).map (fun j => ⟨j, key, value, time, 0⟩)
              ++ [⟨k, key, value, time,
                    (b (world_before key value time bs w k) key value time).1⟩], []⟩) := by
  constructor
  · intro h
    have := insert_loop_all_succeed key value time errno bs 0 w h
    simpa using this
  · intro k b hb hpre hfail
    have := insert_loop_first_failure key value time errno k bs 0 w b hb hpre hfail
    simpa using this

theorem insert_loop_in_order_fail_fast_witness :
    insert_loop ("k".toList) 7 9 0 0 [limitedBackend 5, limitedBackend 5, limitedBackend 5] 0
      = ⟨0, 0, 3, [⟨0, ("k".toList), 7, 9, 0⟩, ⟨1, ("k".toList), 7, 9, 0⟩,
          ⟨2, ("k".toList), 7, 9, 0⟩], []⟩ ∧
    insert_loop ("k".toList) 7 9 0 0 [limitedBackend 5, limitedBackend 1, limitedBackend 5] 0
      = ⟨-1, 0, 2, [⟨0, ("k".toList), 7, 9, 0⟩, ⟨1, ("k".toList), 7, 9, -1⟩], []⟩ :=
  ⟨(insert_loop_in_order_fail_fast ("k".toList) 7 9 0
      [limitedBackend 5, limitedBackend 5, limitedBackend 5] 0).1 (by
        intro i b hb
        rcases i with _ | _ | _ | i
        · simp only [List.getElem?_cons_zero, Option.some.injEq] at hb
          subst hb; decide
        · simp only [List.getElem?_cons_succ, List.getElem?_cons_zero, Option.some.injEq] at hb
          subst hb; decide
        · simp only [List.getElem?_cons_succ, List.getElem?_cons_zero, Option.some.injEq] at hb
          subst hb; decide
        · simp at hb),
   (insert_loop_in_order_fail_fast ("k".toList) 7 9 0
      [limitedBackend 5, limitedBackend 1, limitedBackend 5] 0).2 1 (limitedBackend 1) rfl (by
        intro i b hi hb
        have hi0 : i = 0 := by omega
        subst hi0
        simp only [List.getElem?_cons_zero, Option.some.injEq] at hb
        subst hb; decide) (by decide)⟩

/-! ## Lines that fit the buffer -/

theorem wandio_fgets_loop_line (rest : List Char) :
    ∀ (l : List Char) (n : Nat), '\n' ∉ l → l.length < n →
      wandio_fgets_loop true n (l ++ '\n' :: rest) = (l, l.length + 1, rest) := by
  intro l
  induction l with
  | nil =>
    intro n _ hn
    obtain ⟨m, rfl⟩ : ∃ m, n = m + 1 := ⟨n - 1, by simp at hn; omega⟩
    simp [wandio_fgets_loop]
  | cons c cs ih =>
    intro n hnl hn
    obtain ⟨m, rfl⟩ : ∃ m, n = m + 1 := ⟨n - 1, by simp at hn; omega⟩
    have hc : c ≠ '\n' := fun e => hnl (by simp [e])
    have hcs : '\n' ∉ cs := fun e => hnl (by simp [e])
    have hm : cs.length < m := by simp at hn; omega
    have ih' := ih m hcs hm
    show wandio_fgets_loop true (m + 1) (c :: (cs ++ '\n' :: rest)) = _
    rw [wandio_fgets_loop, if_neg hc, ih']
    rfl

theorem wandio_fgets_loop_full (tail : List Char) :
    ∀ (l : List Char) (n : Nat), '\n' ∉ l → l.length = n →
      wandio_fgets_loop true n (l ++ tail) = (l, n, tail) := by
  intro l
  induction l with
  | nil =>
    intro n _ hn
    simp only [List.length_nil] at hn
    subst hn
    simp [wandio_fgets_loop]
  | cons c cs ih =>
    intro n hnl hn
    simp only [List.length_cons] at hn
    subst hn
    have hc : c ≠ '\n' := fun e => hnl (by simp [e])
    have hcs : '\n' ∉ cs := fun e => hnl (by simp [e])
    have ih' := ih cs.length hcs rfl
    show wandio_fgets_loop true (cs.length + 1) (c :: (cs ++ tail)) = _
    rw [wandio_fgets_loop, if_neg hc, ih']

theorem takeWhile_no_nul (l : List Char) (h : ∀ c ∈ l, c.toNat ≠ 0) :
    l.takeWhile (fun c => decide (c.toNat ≠ 0)) = l :=
  List.takeWhile_eq_self_iff.mpr (fun c hc => by simpa using h c hc)

/-- A line shorter than the buffer is read in one call, newline chomped. -/
theorem wandio_fgets_line (l rest : List Char) (hnl : '\n' ∉ l) (hnul : ∀ c ∈ l, c.toNat ≠ 0)
    (hlen : l.length < BUFFER_LEN - 1) :
    wandio_fgets (l ++ '\n' :: rest) BUFFER_LEN true = ⟨l, ((l.length + 1 : Nat) : Int), rest⟩ := by
  unfold wandio_fgets
  rw [if_neg (by decide), wandio_fgets_loop_line rest l (BUFFER_LEN - 1) hnl hlen,
    takeWhile_no_nul l hnul]

/-- A line that fills the buffer is read without its newline, which is left
to the next call. -/
theorem wandio_fgets_full (l tail : List Char) (hnl : '\n' ∉ l) (hnul : ∀ c ∈ l, c.toNat ≠ 0)
    (hlen : l.length = BUFFER_LEN - 1) :
    wandio_fgets (l ++ tail) BUFFER_LEN true = ⟨l, ((BUFFER_LEN - 1 : Nat) : Int), tail⟩ := by
  unfold wandio_fgets
  rw [if_neg (by decide), wandio_fgets_loop_full tail l (BUFFER_LEN - 1) hnl hlen,
    takeWhile_no_nul l hnul]

theorem wandio_fgets_loop_eof (chomp : Bool) (n : Nat) :
    wandio_fgets_loop chomp n [] = ([], 0, []) := by
  cases n <;> rfl

theorem wandio_fgets_loop_count (chomp : Bool) :
    ∀ (n : Nat) (file : List Char),
      (wandio_fgets_loop chomp n file).2.1 + (wandio_fgets_loop chomp n file).2.2.length
        = file.length := by
  intro n
  induction n with
  | zero => intro file; simp [wandio_fgets_loop]
  | succ n ih =>
    intro file
    cases file with
    | nil => simp [wandio_fgets_loop]
    | cons c cs =>
      by_cases hc : c = '\n'
      · rw [wandio_fgets_loop, if_pos hc]
        simp only [List.length_cons]
        omega
      · rw [wandio_fgets_loop, if_neg hc]
        have := ih cs
        simp only [List.length_cons]
        omega

/-- A call of `wandio_fgets` that returns more than 0 has consumed input. -/
theorem wandio_fgets_progress (file : List Char) (h : 0 < (wandio_fgets file BUFFER_LEN true).ret) :
    (wandio_fgets file BUFFER_LEN true).rest.length < file.length := by
  have hc := wandio_fgets_loop_count true (BUFFER_LEN - 1) file
  unfold wandio_fgets at h ⊢
  rw [if_neg (by decide)] at h ⊢
  simp only at h ⊢
  omega

/-- The read loop ends: one iteration more than the file has bytes always
suffices. -/
theorem main_loop_total {σ : Type} (ulong_max : Nat) (backends : List (Backend σ)) :
    ∀ (fuel errno : Nat) (w : σ) (infile : List Char), infile.length < fuel →
      ∃ r, main_loop ulong_max backends fuel errno w infile = some r := by
  intro fuel
  induction fuel with
  | zero => intro errno w infile h; omega
  | succ fuel ih =>
    intro errno w infile h
    rw [main_loop]
    by_cases hret : 0 < (wandio_fgets infile BUFFER_LEN true).ret
    · have hprog := wandio_fgets_progress infile hret
      rw [if_pos hret]
      by_cases hskip : (wandio_fgets infile BUFFER_LEN true).buffer.head? = some '#' ∨
          (wandio_fgets infile BUFFER_LEN true).buffer = []
      · rw [if_pos hskip]
        exact ih errno w _ (by omega)
      · rw [if_neg hskip]
        obtain ⟨t, ht⟩ := ih
          (insert ulong_max backends errno w (wandio_fgets infile BUFFER_LEN true).buffer).errno
          (insert ulong_max backends errno w (wandio_fgets infile BUFFER_LEN true).buffer).world
          (wandio_fgets infile BUFFER_LEN true).rest (by omega)
        rw [ht]
        exact ⟨_, rfl⟩
    · rw [if_neg hret]
      exact ⟨_, rfl⟩

/-- The function `main` always completes the read loop. -/
theorem main_total {σ : Type} (ulong_max : Nat) (backends : List (Backend σ)) (errno : Nat)
    (w : σ) (infile : List Char) :
    ∃ r, main ulong_max backends errno w infile = some r :=
  main_loop_total ulong_max backends (infile.length + 1) errno w infile (by omega)

/-- One line that fits the buffer, seen by the read loop: it is skipped when it
is empty or starts with `#`, and is passed to `insert` otherwise; the loop
goes on with the rest of the file. -/
theorem main_loop_line {σ : Type} (ulong_max : Nat) (backends : List (Backend σ))
    (fuel errno : Nat) (w : σ) (l rest : List Char) (hl : FitsBuffer l)
    (hfuel : (l ++ '\n' :: rest).length < fuel) :
    ∃ fuel', rest.length < fuel' ∧
      main_loop ulong_max backends fuel errno w (l ++ '\n' :: rest) =
        if l.head? = some '#' ∨ l = [] then main_loop ulong_max backends fuel' errno w rest
        else
          match main_loop ulong_max backends fuel'
              (insert ulong_max backends errno w l).errno
              (insert ulong_max backends errno w l).world rest with
          | none => none
          | some t =>
            some ⟨t.exit, t.errno, t.world,
              (insert ulong_max backends errno w l).calls ++ t.calls,
              (insert ulong_max backends errno w l).stderr ++ t.stderr, l :: t.inserted⟩ := by
  obtain ⟨hnl, hnul, hlen⟩ := hl
  simp only [List.length_append, List.length_cons] at hfuel
  have hnewline : wandio_fgets ('\n' :: rest) BUFFER_LEN true = ⟨[], ((0 + 1 : Nat) : Int), rest⟩ :=
    wandio_fgets_line [] rest (by simp) (by simp) (by decide)
  by_cases hshort : l.length < BUFFER_LEN - 1
  · obtain ⟨f, rfl⟩ : ∃ f, fuel = f + 1 := ⟨fuel - 1, by omega⟩
    refine ⟨f, by omega, ?_⟩
    rw [main_loop, wandio_fgets_line l rest hnl hnul hshort]
    simp only []
    rw [if_pos (by omega)]
  · have hfull : l.length = BUFFER_LEN - 1 := by omega
    have hB : BUFFER_LEN - 1 = 1023 := by decide
    obtain ⟨f, rfl⟩ : ∃ f, fuel = f + 1 + 1 := ⟨fuel - 2, by omega⟩
    have hne : l ≠ [] := by
      intro e
      rw [e] at hfull
      simp [hB] at hfull
    refine ⟨f, by omega, ?_⟩
    rw [main_loop, wandio_fgets_full l ('\n' :: rest) hnl hnul hfull]
    simp only []
    rw [if_pos (by decide)]
    have hnext : ∀ (e : Nat) (w' : σ),
        main_loop ulong_max backends (f + 1) e w' ('\n' :: rest)
          = main_loop ulong_max backends f e w' rest := by
      intro e w'
      rw [main_loop, hnewline]
      simp
    by_cases hskip : l.head? = some '#' ∨ l = []
    · rw [if_pos hskip, if_pos hskip, hnext]
    · rw [if_neg hskip, if_neg hskip, hnext]

/-- On a file whose lines all fit the buffer, the read loop passes exactly the
lines that are not empty and do not start with `#` to `insert`, each once and
in input order, and nothing else happens. -/
theorem main_loop_lines {σ : Type} (ulong_max : Nat) (backends : List (Backend σ))
    (lines : List CStr) :
    ∀ (fuel errno : Nat) (w : σ), (∀ l ∈ lines, FitsBuffer l) →
      (file_of_lines lines).length < fuel →
      main_loop ulong_max backends fuel errno w (file_of_lines lines)
        = some (insert_each ulong_max backends errno w
            (lines.filter (fun l => !(decide (l = []) || decide (l.head? = some '#'))))) := by
  induction lines with
  | nil =>
    intro fuel errno w _ hfuel
    obtain ⟨f, rfl⟩ : ∃ f, fuel = f + 1 := ⟨fuel - 1, by omega⟩
    have h0 : wandio_fgets [] BUFFER_LEN true = ⟨[], 0, []⟩ := by
      unfold wandio_fgets
      rw [if_neg (by decide), wandio_fgets_loop_eof]
      rfl
    rw [file_of_lines, main_loop, h0]
    simp [insert_each]
  | cons l ls ih =>
    intro fuel errno w hfit hfuel
    rw [file_of_lines] at hfuel ⊢
    obtain ⟨fuel', hf', hstep⟩ := main_loop_line ulong_max backends fuel errno w l
      (file_of_lines ls) (hfit l (by simp)) hfuel
    have hfit' : ∀ l' ∈ ls, FitsBuffer l' := fun l' h' => hfit l' (by simp [h'])
    rw [hstep]
    by_cases hskip : l.head? = some '#' ∨ l = []
    · have hf : (!(decide (l = []) || decide (l.head? = some '#'))) = false := by
        rcases hskip with h | h <;> simp [h]
      rw [if_pos hskip, ih fuel' errno w hfit' hf']
      simp only [List.filter_cons, hf, Bool.false_eq_true, if_false]
    · have hf : (!(decide (l = []) || decide (l.head? = some '#'))) = true := by
        push_neg at hskip
        simp [hskip.1, hskip.2]
      rw [if_neg hskip, ih fuel' _ _ hfit' hf']
      simp only [List.filter_cons, hf, if_true, insert_each]

/-- The read loop on lines that fit the buffer: `main` on a file whose lines
have at most `BUFFER_LEN - 1` characters is `insert` called once, in order, on
each line that is not empty and does not start with `#`. -/
theorem main_on_lines_that_fit {σ : Type} (ulong_max : Nat) (backends : List (Backend σ))
    (errno : Nat) (w : σ) (lines : List CStr) (hfit : ∀ l ∈ lines, FitsBuffer l) :
    main ulong_max backends errno w (file_of_lines lines)
      = some (insert_each ulong_max backends errno w
          (lines.filter (fun l => !(decide (l = []) || decide (l.head? = some '#'))))) :=
  main_loop_lines ulong_max backends lines _ errno w hfit (by omega)

theorem main_on_lines_that_fit_example :
    main (2 ^ 64 - 1) [okBackend] 0 ()
        (file_of_lines [("# comment".toList), [], ("a 1 2".toList), ("b 3 4".toList)])
      = some (insert_each (2 ^ 64 - 1) [okBackend] 0 ()
          [("a 1 2".toList), ("b 3 4".toList)]) :=
  main_on_lines_that_fit (2 ^ 64 - 1) [okBackend] 0 ()
    [("# comment".toList), [], ("a 1 2".toList), ("b 3 4".toList)] (by decide)

/-! ## The read loop of `main` -/

/-- Claim C3, at an input where the code departs from it: the only backend
fails on every write, `insert` returns -1 for the first line, and still the
second line is parsed and written and the run ends with exit status 0. -/
theorem main_continues_after_backend_failure :
    (insert (2 ^ 64 - 1) [failBackend] 0 () ("a 1 1".toList)).ret = -1 ∧
    (main (2 ^ 64 - 1) [failBackend] 0 () ("a 1 1\nb 2 2\n".toList)).map Run.calls
      = some [⟨0, ("a".toList), 1, 1, -1⟩, ⟨0, ("b".toList), 2, 2, -1⟩] ∧
    (main (2 ^ 64 - 1) [failBackend] 0 () ("a 1 1\nb 2 2\n".toList)).map Run.inserted
      = some [("a 1 1".toList), ("b 2 2".toList)] ∧
    (main (2 ^ 64 - 1) [failBackend] 0 () ("a 1 1\nb 2 2\n".toList)).map Run.exit
      = some 0 := by
  decide

/-- Claim C8, at an input where the code departs from it: the first line fails
to parse (its value overflows), and the stream with that line writes nothing
while the stream without it writes the record of the second line. -/
theorem rejected_line_changes_later_lines :
    (insert (2 ^ 64 - 1) [okBackend] 0 () ("x 99999999999999999999 1".toList)).stderr
      = [Diag.invalidValue ("x".toList) ("99999999999999999999".toList)] ∧
    (main (2 ^ 64 - 1) [okBackend] 0 ()
        ("x 99999999999999999999 1\na 1 2\n".toList)).map Run.calls = some [] ∧
    (main (2 ^ 64 - 1) [okBackend] 0 () ("a 1 2\n".toList)).map Run.calls
      = some [⟨0, ("a".toList), 1, 2, 0⟩] := by
  decide

set_option maxRecDepth 100000 in
/-- Claim C10, at an input where the code departs from it: the input is the
single line that starts with `#`, goes on with 1022 characters `x` and ends in
`k 1 2`.  The line is longer than the 1023 bytes that fit the buffer, so it
reaches the loop in two buffers: the first starts with `#` and is skipped, the
second is `k 1 2`, which is passed to `insert` and written to the backend. -/
theorem long_comment_line_tail_is_inserted :
    (main (2 ^ 64 - 1) [okBackend] 0 ()
        ('#' :: (List.replicate 1022 'x' ++ ("k 1 2\n".toList)))).map Run.inserted
      = some [("k 1 2".toList)] ∧
    (main (2 ^ 64 - 1) [okBackend] 0 ()
        ('#' :: (List.replicate 1022 'x' ++ ("k 1 2\n".toList)))).map Run.calls
      = some [⟨0, ("k".toList), 1, 2, 0⟩] := by
  decide

end TimeseriesInsert
